import Mathlib

/-!
Shallow embedding of the resilient Freepik task-polling client of the
TRC_AI repository (`competition_waste_generator.py` together with the
script variants `regenerate_dangereux_images.py` and `script.py`), and
theorems checking the specification claims about key rotation, the retry
policy, result polling, the image cache and batch error handling.

HTTP traffic is modelled by an oracle `env : Nat → Nat` giving the status
code of the n-th request issued during a run, and the sampled backoff
jitter by an oracle `jit : Nat → ℚ`.  Pool state mutations and observable
actions (requests issued, sleeps, failure markings) are threaded
explicitly.
-/

namespace TRCAI

/-- Python `str(x).startswith("http")` applied to an element of the
`generated` array (`competition_waste_generator.py` lines 513 and 521,
`regenerate_dangereux_images.py` line 135). -/
def startsHttp (s : String) : Bool :=
  List.isPrefixOf "http".toList s.toList

/-- Result extraction from a COMPLETED Freepik task in
`FreepikImageGenerator._wait_for_completion` (lines 503-525): index 1 is
used when `generated` has at least two elements, and the value is returned
only when it starts with "http" (no fallback to index 0 otherwise); index
0 is used when the list has exactly one element, with the same "http"
guard; in every remaining case the code reaches `return None`. -/
def completedResult (generated : List String) : Option String :=
  match generated.get? 1 with
  | some u => if startsHttp u then some u else none
  | none =>
    match generated.get? 0 with
    | some u => if startsHttp u then some u else none
    | none => none

/-- One poll iteration's observed response: a 200 response with the task
status and the `generated` list, or a failed status request. -/
inductive PollResponse where
  | ok (status : String) (generated : List String)
  | err
deriving DecidableEq

/-- `FreepikImageGenerator._wait_for_completion` (lines 483-541) as a
function of the successive poll responses; trace exhaustion is the
wall-clock timeout.  A COMPLETED status returns the extracted result
immediately, FAILED/CANCELLED return failure, and anything else
(including a failed status request) sleeps and polls again. -/
def wait_for_completion : List PollResponse → Option String
  | [] => none
  | PollResponse.err :: rest => wait_for_completion rest
  | PollResponse.ok status g :: rest =>
    if status = "COMPLETED" then completedResult g
    else if status = "FAILED" ∨ status = "CANCELLED" then none
    else wait_for_completion rest

/-- `wait_for_completion` of `regenerate_dangereux_images.py`
(lines 118-145): on COMPLETED it returns `generated[1]` only when the
list has at least two elements and that element starts with "http";
otherwise (including the single-element case) it keeps polling until the
timeout; FAILED/CANCELLED return failure. -/
def regen_wait_for_completion : List PollResponse → Option String
  | [] => none
  | PollResponse.err :: rest => regen_wait_for_completion rest
  | PollResponse.ok status g :: rest =>
    if status = "COMPLETED" then
      match g.get? 1 with
      | some u => if startsHttp u then some u else regen_wait_for_completion rest
      | none => regen_wait_for_completion rest
    else if status = "FAILED" ∨ status = "CANCELLED" then none
    else regen_wait_for_completion rest

/-- State of the key pool owned by `FreepikImageGenerator`: the validated
key list `api_keys`, the usage counters `key_usage_count`, the temporary
failure set `failed_keys` and the permanent invalidity set `invalid_keys`
(Python sets are modelled as duplicate-free lists built by
`insertKey`). -/
structure PoolState where
  apiKeys : List String
  usage : String → Nat
  failed : List String
  invalid : List String

/-- Python `set.add`: insert a key unless it is already present. -/
def insertKey (k : String) (l : List String) : List String :=
  if k ∈ l then l else k :: l

/-- The list comprehension selecting keys that are neither in
`failed_keys` nor in `invalid_keys` (lines 210-211 and 230-231). -/
def availableKeys (s : PoolState) : List String :=
  s.apiKeys.filter (fun k => !decide (k ∈ s.failed) && !decide (k ∈ s.invalid))

/-- Python `min(keys, key=usage)`: the first key attaining the minimal
usage count (CPython's `min` keeps the earliest minimum). -/
def minByUsage (u : String → Nat) : List String → Option String
  | [] => none
  | k :: ks =>
    match minByUsage u ks with
    | none => some k
    | some m => if u k ≤ u m then some k else some m

/-- `FreepikImageGenerator.get_current_api_key` (lines 207-221): filter
the available keys; when none remain, clear the temporary failures and
select among the whole `api_keys` list; return the least-used key of the
chosen list (`none` only for an empty pool). -/
def get_current_api_key (s : PoolState) : Option String × PoolState :=
  if (availableKeys s).isEmpty then
    (minByUsage s.usage s.apiKeys, { s with failed := [] })
  else
    (minByUsage s.usage (availableKeys s), s)

/-- Observable actions of a `_make_request_with_retry` run: one HTTP
attempt with the key used and the status received, one backoff sleep, one
`failed_keys.add` and one `invalid_keys.add`. -/
inductive Event where
  | attempt (key : String) (status : Nat)
  | sleep (d : ℚ)
  | markTemp (key : String)
  | markInvalid (key : String)
deriving DecidableEq

/-- The selection part of `FreepikImageGenerator.rotate_api_key`
(lines 229-246): pick the least-used available key; if none is available,
fall back to the first non-invalid key after clearing the temporary
failures, and as a last resort ("dernier recours") to the first key of
the pool. -/
def rotateSelect (s1 : PoolState) : Option String × PoolState :=
  if (availableKeys s1).isEmpty then
    let validKeys := s1.apiKeys.filter (fun k => !decide (k ∈ s1.invalid))
    if validKeys.isEmpty then
      (s1.apiKeys.get? 0, s1)
    else
      (validKeys.get? 0, { s1 with failed := [] })
  else
    (minByUsage s1.usage (availableKeys s1), s1)

/-- `FreepikImageGenerator.rotate_api_key` (lines 223-246): optionally add
the given key to `failed_keys` first, then select via `rotateSelect`.
Returns the chosen key, the new state and the emitted events. -/
def rotate_api_key (s : PoolState) (failedKey : Option String) :
    Option String × PoolState × List Event :=
  match failedKey with
  | some k =>
    let r := rotateSelect { s with failed := insertKey k s.failed }
    (r.1, r.2, [Event.markTemp k])
  | none =>
    let r := rotateSelect s
    (r.1, r.2, [])

/-- `self.max_retries = 2` (line 101). -/
def max_retries : Nat := 2

/-- `self.base_delay = 1.0` (line 102). -/
def base_delay : ℚ := 1

/-- `self.max_delay = 10.0` (line 103). -/
def max_delay : ℚ := 10

/-- The backoff computation of line 264,
`min(self.base_delay * (2 ** attempt) + random.uniform(0, 0.5),
self.max_delay)`, with the sampled jitter passed explicitly (Python's
two-argument `min` written out). -/
def backoffDelay (baseD maxD : ℚ) (attempt : Nat) (jitter : ℚ) : ℚ :=
  if baseD * 2 ^ attempt + jitter ≤ maxD then baseD * 2 ^ attempt + jitter
  else maxD

/-- Outcome of the inner retry loop for one key: a 200 response was
obtained, or the loop gave up on this key. -/
inductive TryResult where
  | success
  | nextKey
deriving DecidableEq

/-- The inner retry loop of `_make_request_with_retry` (lines 261-329)
for a fixed key, over the list of remaining attempt indices (a full round
uses `List.range (max_retries + 1)`).  Attempt 0 increments the key's
usage counter; later attempts sleep the backoff delay first.  Status 200
returns the response; 401/403 mark the key permanently invalid and rotate
at once; 404 marks invalid and rotates only on the final attempt; 429 and
any unexpected status rotate on the final attempt; 5xx never rotates
inside the loop.  Returns the outcome, the mutated pool state, the next
request counter and the emitted events. -/
def tryKey (env : Nat → Nat) (jit : Nat → ℚ) (key : String) (maxR : Nat) :
    List Nat → PoolState → Nat → TryResult × PoolState × Nat × List Event
  | [], s, rc => (TryResult.nextKey, s, rc, [])
  | attempt :: rest, s, rc =>
    let pre : List Event :=
      if attempt = 0 then []
      else [Event.sleep (backoffDelay base_delay max_delay attempt (jit rc))]
    let s0 : PoolState :=
      if attempt = 0 then
        { s with usage := fun k => if k = key then s.usage k + 1 else s.usage k }
      else s
    let status := env rc
    let ev := pre ++ [Event.attempt key status]
    if status = 200 then (TryResult.success, s0, rc + 1, ev)
    else if status = 401 ∨ status = 403 then
      let s1 : PoolState := { s0 with invalid := insertKey key s0.invalid }
      let r := rotate_api_key s1 (some key)
      (TryResult.nextKey, r.2.1, rc + 1, ev ++ [Event.markInvalid key] ++ r.2.2)
    else if status = 404 then
      if attempt = maxR then
        let s1 : PoolState := { s0 with invalid := insertKey key s0.invalid }
        let r := rotate_api_key s1 (some key)
        (TryResult.nextKey, r.2.1, rc + 1, ev ++ [Event.markInvalid key] ++ r.2.2)
      else
        let q := tryKey env jit key maxR rest s0 (rc + 1)
        (q.1, q.2.1, q.2.2.1, ev ++ q.2.2.2)
    else if status = 429 then
      if attempt = maxR then
        let r := rotate_api_key s0 (some key)
        (TryResult.nextKey, r.2.1, rc + 1, ev ++ r.2.2)
      else
        let q := tryKey env jit key maxR rest s0 (rc + 1)
        (q.1, q.2.1, q.2.2.1, ev ++ q.2.2.2)
    else if status = 500 ∨ status = 502 ∨ status = 503 ∨ status = 504 then
      let q := tryKey env jit key maxR rest s0 (rc + 1)
      (q.1, q.2.1, q.2.2.1, ev ++ q.2.2.2)
    else
      if attempt = maxR then
        let r := rotate_api_key s0 (some key)
        (TryResult.nextKey, r.2.1, rc + 1, ev ++ r.2.2)
      else
        let q := tryKey env jit key maxR rest s0 (rc + 1)
        (q.1, q.2.1, q.2.2.1, ev ++ q.2.2.2)

/-- The outer key-rotation loop of `_make_request_with_retry`
(lines 254-336): at most `len(api_keys)` rounds (the `fuel`); after each
failed round the key is rotated, and the loop breaks early when rotation
returns to the original key on a round other than the first (`first`
records whether the current round is `key_attempt == 0`). -/
def requestLoop (env : Nat → Nat) (jit : Nat → ℚ) (orig : String) :
    Nat → Bool → String → PoolState → Nat →
      Option Nat × PoolState × Nat × List Event
  | 0, _, _, s, rc => (none, s, rc, [])
  | fuel + 1, first, cur, s, rc =>
    let t := tryKey env jit cur max_retries (List.range (max_retries + 1)) s rc
    match t.1 with
    | TryResult.success => (some t.2.2.1, t.2.1, t.2.2.1, t.2.2.2)
    | TryResult.nextKey =>
      let r := rotate_api_key t.2.1 (some cur)
      match r.1 with
      | none => (none, r.2.1, t.2.2.1, t.2.2.2 ++ r.2.2)
      | some next =>
        if next = orig ∧ first = false then
          (none, r.2.1, t.2.2.1, t.2.2.2 ++ r.2.2)
        else
          let q := requestLoop env jit orig fuel false next r.2.1 t.2.2.1
          (q.1, q.2.1, q.2.2.1, t.2.2.2 ++ r.2.2 ++ q.2.2.2)

/-- `FreepikImageGenerator._make_request_with_retry` (lines 248-338):
select the starting key, then run up to `len(api_keys)` rotation rounds.
The first component is `some i` when a 200 response was obtained (`i` is
the request counter just after the successful request) and `none` when
the whole operation failed. -/
def make_request_with_retry (env : Nat → Nat) (jit : Nat → ℚ)
    (s : PoolState) (rc : Nat) : Option Nat × PoolState × Nat × List Event :=
  match get_current_api_key s with
  | (none, s1) => (none, s1, rc, [])
  | (some orig, s1) => requestLoop env jit orig s1.apiKeys.length true orig s1 rc

/-- The (key, status) pairs of the HTTP attempts in an event list. -/
def attemptEvents : List Event → List (String × Nat)
  | [] => []
  | Event.attempt k c :: rest => (k, c) :: attemptEvents rest
  | Event.sleep _ :: rest => attemptEvents rest
  | Event.markTemp _ :: rest => attemptEvents rest
  | Event.markInvalid _ :: rest => attemptEvents rest

/-- The backoff delays slept in an event list. -/
def sleepDelays : List Event → List ℚ
  | [] => []
  | Event.sleep d :: rest => d :: sleepDelays rest
  | Event.attempt _ _ :: rest => sleepDelays rest
  | Event.markTemp _ :: rest => sleepDelays rest
  | Event.markInvalid _ :: rest => sleepDelays rest

/-- The keys passed to `invalid_keys.add` in an event list. -/
def invalidMarks : List Event → List String
  | [] => []
  | Event.markInvalid k :: rest => k :: invalidMarks rest
  | Event.attempt _ _ :: rest => invalidMarks rest
  | Event.sleep _ :: rest => invalidMarks rest
  | Event.markTemp _ :: rest => invalidMarks rest

/-- Checks that any attempt answered 401 or 403 is the last attempt of
the list (no request follows an authentication failure). -/
def noAttemptAfterAuth : List (String × Nat) → Bool
  | [] => true
  | (_, c) :: rest =>
    if c = 401 ∨ c = 403 then rest.isEmpty else noAttemptAfterAuth rest

/-- The pool state right after startup validation: fresh counters and
empty failure sets (lines 94-98 and 112-114). -/
def initPool (keys : List String) : PoolState :=
  ⟨keys, fun _ => 0, [], []⟩

/-- Pool states reachable in a run: the startup state followed by any
sequence of `_make_request_with_retry` calls (the only operations that
mutate the pool). -/
inductive Reachable : PoolState → Prop where
  | init (keys : List String) : Reachable (initPool keys)
  | step (env : Nat → Nat) (jit : Nat → ℚ) (rc : Nat) (s : PoolState) :
      Reachable s → Reachable (make_request_with_retry env jit s rc).2.1

/-- Invariant of reachable pool states: some key is available, or every
pool key has been marked permanently invalid. -/
def PoolInv (s : PoolState) : Prop :=
  availableKeys s ≠ [] ∨ ∀ k, k ∈ s.apiKeys → k ∈ s.invalid

/-- A generation work item (name × category × zone identify the cache
key; the descriptive fields of `CompetitionWasteItem` play no role in
caching or submission). -/
structure CompetitionWasteItem where
  name : String
  category : String
  zone : String
deriving DecidableEq

/-- The cache key `f"{item.category}_{item.zone}_{item.name}"`
(line 1015). -/
def cacheKey (it : CompetitionWasteItem) : String :=
  it.category ++ "_" ++ it.zone ++ "_" ++ it.name

/-- Python dictionary lookup on the loaded cache (keys are unique, so
first match suffices). -/
def cacheLookup (key : String) : List (String × String) → Option String
  | [] => none
  | p :: rest => if p.1 = key then some p.2 else cacheLookup key rest

/-- Outcome of one Python call: an exception, or a returned value. -/
inductive StageOutcome (α : Type) where
  | raise (msg : String)
  | ret (val : α)
deriving DecidableEq

/-- The cache-filtering loop of
`CompetitionDatasetGenerator.generate_all_images` (lines 1012-1020):
items whose cache key is present are paired with the cached bytes, the
others are queued in `items_to_generate`. -/
def splitCached (cache : List (String × String)) :
    List CompetitionWasteItem →
      List (CompetitionWasteItem × String) × List CompetitionWasteItem
  | [] => ([], [])
  | it :: rest =>
    let q := splitCached cache rest
    match cacheLookup (cacheKey it) cache with
    | some b => ((it, b) :: q.1, q.2)
    | none => (q.1, it :: q.2)

/-- `CompetitionDatasetGenerator.generate_all_images` (lines 1002-1054):
split off the cached items, submit `generate_image` exactly for the
remaining ones, collect the bytes of the successful items and count the
failures (a raised exception from a work item is caught and counted, and
the loop continues).  Returns (collected images, submitted items, failure
count). -/
def generate_all_images (items : List CompetitionWasteItem)
    (cache : List (String × String))
    (outcome : CompetitionWasteItem → StageOutcome (Option String)) :
    List (CompetitionWasteItem × String) × List CompetitionWasteItem × Nat :=
  let sp := splitCached cache items
  let results := sp.2.filterMap (fun it =>
    match outcome it with
    | StageOutcome.ret (some b) => some (it, b)
    | StageOutcome.ret none => none
    | StageOutcome.raise _ => none)
  let failures := (sp.2.filter (fun it =>
    match outcome it with
    | StageOutcome.ret (some _) => false
    | StageOutcome.ret none => true
    | StageOutcome.raise _ => true)).length
  (sp.1 ++ results, sp.2, failures)

/-- The collaborators of `FreepikImageGenerator.generate_image` for one
work item: the connectivity test, task creation, completion polling and
image download, each able to raise or to return its Python value. -/
structure GenEnv where
  connectivityOk : StageOutcome Bool
  createTask : StageOutcome (Option String)
  waitCompletion : String → StageOutcome (Option String)
  downloadImage : String → StageOutcome (Option String)

/-- `FreepikImageGenerator.generate_image` (lines 340-376): each failed
or raising step short-circuits to `return None`; the surrounding
`try`/`except` turns any exception into `None` as well; bytes are
returned only when all four steps succeed. -/
def generate_image (genv : GenEnv) : Option String :=
  match genv.connectivityOk with
  | StageOutcome.raise _ => none
  | StageOutcome.ret false => none
  | StageOutcome.ret true =>
    match genv.createTask with
    | StageOutcome.raise _ => none
    | StageOutcome.ret none => none
    | StageOutcome.ret (some tid) =>
      match genv.waitCompletion tid with
      | StageOutcome.raise _ => none
      | StageOutcome.ret none => none
      | StageOutcome.ret (some url) =>
        match genv.downloadImage url with
        | StageOutcome.raise _ => none
        | StageOutcome.ret none => none
        | StageOutcome.ret (some data) => some data

/-- Zero jitter oracle used for concrete runs. -/
def zeroJit : Nat → ℚ := fun _ => 0

/-- Oracle answering 401 to every request. -/
def env401 : Nat → Nat := fun _ => 401

/-- Oracle answering 429 to every request. -/
def env429 : Nat → Nat := fun _ => 429

/-- Pool state after one all-401 request run on a fresh two-key pool:
both keys end up permanently invalid. -/
def c2State : PoolState :=
  (make_request_with_retry env401 zeroJit (initPool ["k1", "k2"]) 0).2.1

/-- Status oracle of the rotation counterexample: request 0 succeeds with
key k1; requests 1-3 are the 429 budget of key k2; request 4 succeeds
with k1 again; all later requests fail with 503. -/
def c3Env : Nat → Nat := fun rc =>
  if rc = 0 then 200 else if rc ≤ 3 then 429
  else if rc = 4 then 200 else 503

/-- First request of the rotation counterexample (succeeds with k1). -/
def c3Run1 : Option Nat × PoolState × Nat × List Event :=
  make_request_with_retry c3Env zeroJit (initPool ["k1", "k2"]) 0

/-- Second request: k2 exhausts its 429 budget, then k1 succeeds, leaving
k2 marked temporarily failed. -/
def c3Run2 : Option Nat × PoolState × Nat × List Event :=
  make_request_with_retry c3Env zeroJit c3Run1.2.1 c3Run1.2.2.1

/-- Third request: every issued attempt uses k1 (k2, although valid, is
never tried) and the work item is abandoned. -/
def c3Run3 : Option Nat × PoolState × Nat × List Event :=
  make_request_with_retry c3Env zeroJit c3Run2.2.1 c3Run2.2.2.1

/-- Status oracle of the auth-retry counterexample: requests 0-2 are the
429 budget of key k1, every later request answers 401. -/
def c4Env : Nat → Nat := fun rc => if rc < 3 then 429 else 401

/-- First request of the auth-retry counterexample: k1 exhausts its 429
budget, then k2 and k3 both receive 401 and become invalid. -/
def c4Run1 : Option Nat × PoolState × Nat × List Event :=
  make_request_with_retry c4Env zeroJit (initPool ["k1", "k2", "k3"]) 0

/-- Second request: k1 receives 401, is marked invalid, and is then
attempted once more in the same request by the last-resort rotation. -/
def c4Run2 : Option Nat × PoolState × Nat × List Event :=
  make_request_with_retry c4Env zeroJit c4Run1.2.1 c4Run1.2.2.1

/-- Single-credential run in which every request answers 429. -/
def c5Run : Option Nat × PoolState × Nat × List Event :=
  make_request_with_retry env429 zeroJit (initPool ["k1"]) 0

theorem completedResult_some_http (g : List String) (u : String)
    (h : completedResult g = some u) : startsHttp u = true := by
  unfold completedResult at h
  split at h
  · split at h
    · cases h
      assumption
    · simp at h
  · split at h
    · split at h
      · cases h
        assumption
      · simp at h
    · simp at h

theorem wait_for_completion_completed (g : List String)
    (rest : List PollResponse) :
    wait_for_completion (PollResponse.ok "COMPLETED" g :: rest) =
      completedResult g := by
  simp [wait_for_completion]

/-- C1 (amended): for the main generator's poll loop, a COMPLETED
response with at least two `generated` elements yields the index-1
element exactly when it starts with "http" (there is no fallback to index
0), a single-element list yields its element exactly when it starts with
"http", and an empty list yields failure; the regenerate-script variant
returns the index-1 element only when the list has at least two elements
and that element starts with "http", and otherwise keeps polling, with no
single-element fallback. -/
theorem c1_completed_extraction (g : List String) :
    (∀ u, g.get? 1 = some u →
      wait_for_completion [PollResponse.ok "COMPLETED" g] =
        (if startsHttp u then some u else none)) ∧
    (∀ u, g = [u] →
      wait_for_completion [PollResponse.ok "COMPLETED" g] =
        (if startsHttp u then some u else none)) ∧
    (g = [] → wait_for_completion [PollResponse.ok "COMPLETED" g] = none) ∧
    (∀ u rest, g.get? 1 = some u → startsHttp u = true →
      regen_wait_for_completion (PollResponse.ok "COMPLETED" g :: rest) =
        some u) ∧
    (∀ rest, g.get? 1 = none →
      regen_wait_for_completion (PollResponse.ok "COMPLETED" g :: rest) =
        regen_wait_for_completion rest) := by
  refine ⟨?_, ?_, ?_, ?_, ?_⟩
  · intro u h1
    rw [wait_for_completion_completed]
    unfold completedResult
    rw [h1]
  · intro u h1
    subst h1
    rw [wait_for_completion_completed]
    rfl
  · intro h1
    subst h1
    rfl
  · intro u rest h1 hh
    rw [regen_wait_for_completion, if_pos rfl, h1]
    simp [hh]
  · intro rest h1
    rw [regen_wait_for_completion, if_pos rfl, h1]

/-- Witness for the amended C1: a COMPLETED response whose `generated`
list is `["dims", "http://x/img.jpg"]` makes the poll loop return the
index-1 URL. -/
theorem c1_completed_extraction_witness :
    wait_for_completion
        [PollResponse.ok "COMPLETED" ["dims", "http://x/img.jpg"]] =
      (if startsHttp "http://x/img.jpg" then some "http://x/img.jpg"
       else none) :=
  (c1_completed_extraction ["dims", "http://x/img.jpg"]).1 "http://x/img.jpg"
    rfl

/-- Counterexample to C1 as stated: on a COMPLETED response with
`generated = ["meta", "zzz"]` the poll loop returns `None`, not the
index-1 element `"zzz"`; and the regenerate-script variant returns
failure for a single-element list even when that element is an http URL
(no index-0 fallback). -/
theorem c1_completed_extraction_cex :
    ["meta", "zzz"].get? 1 = some "zzz" ∧
    wait_for_completion [PollResponse.ok "COMPLETED" ["meta", "zzz"]] =
      none ∧
    regen_wait_for_completion
        [PollResponse.ok "COMPLETED" ["http://a/b.jpg"]] = none := by
  decide

/-- C10: every result the main generator's poll loop returns starts with
"http"; in particular a COMPLETED response whose index-1 element is not
an http string yields `None` immediately (no fallback to index 0). -/
theorem c10_poll_returns_http_only :
    (∀ t u, wait_for_completion t = some u → startsHttp u = true) ∧
    (∀ g u rest, g.get? 1 = some u → startsHttp u = false →
      wait_for_completion (PollResponse.ok "COMPLETED" g :: rest) = none) := by
  constructor
  · intro t
    induction t with
    | nil => intro u h; exact absurd h (by simp [wait_for_completion])
    | cons r rest ih =>
      intro u h
      cases r with
      | err => exact ih u h
      | ok status g =>
        rw [wait_for_completion] at h
        by_cases hc : status = "COMPLETED"
        · rw [if_pos hc] at h
          exact completedResult_some_http g u h
        · rw [if_neg hc] at h
          by_cases hf : status = "FAILED" ∨ status = "CANCELLED"
          · rw [if_pos hf] at h
            exact absurd h (by simp)
          · rw [if_neg hf] at h
            exact ih u h
  · intro g u rest h1 hh
    rw [wait_for_completion_completed]
    unfold completedResult
    rw [h1]
    simp [hh]

/-- Witness for C10: a concrete successful poll result indeed starts with
"http". -/
theorem c10_poll_returns_http_only_witness :
    startsHttp "http://x/img.jpg" = true :=
  c10_poll_returns_http_only.1
    [PollResponse.ok "COMPLETED" ["dims", "http://x/img.jpg"]]
    "http://x/img.jpg" (by decide)

theorem mem_availableKeys (s : PoolState) (k : String) :
    k ∈ availableKeys s ↔ k ∈ s.apiKeys ∧ k ∉ s.failed ∧ k ∉ s.invalid := by
  simp [availableKeys, List.mem_filter]

theorem minByUsage_mem (u : String → Nat) :
    ∀ (l : List String) (m : String), minByUsage u l = some m → m ∈ l := by
  intro l
  induction l with
  | nil => intro m h; simp [minByUsage] at h
  | cons k ks ih =>
    intro m h
    rw [minByUsage] at h
    split at h
    · cases h
      exact List.mem_cons_self _ _
    · split at h
      · cases h
        exact List.mem_cons_self _ _
      · cases h
        exact List.mem_cons_of_mem _ (ih _ (by assumption))

theorem minByUsage_isSome (u : String → Nat) (l : List String)
    (h : l ≠ []) : ∃ m, minByUsage u l = some m := by
  cases l with
  | nil => exact absurd rfl h
  | cons k ks =>
    rw [minByUsage]
    rcases hm : minByUsage u ks with _ | m1
    · exact ⟨k, rfl⟩
    · by_cases hle : u k ≤ u m1
      · refine ⟨k, ?_⟩
        show (if u k ≤ u m1 then some k else some m1) = some k
        rw [if_pos hle]
      · refine ⟨m1, ?_⟩
        show (if u k ≤ u m1 then some k else some m1) = some m1
        rw [if_neg hle]

theorem minByUsage_le (u : String → Nat) :
    ∀ (l : List String) (m : String), minByUsage u l = some m →
      ∀ x ∈ l, u m ≤ u x := by
  intro l
  induction l with
  | nil => intro m h; simp [minByUsage] at h
  | cons k ks ih =>
    intro m h x hx
    rw [minByUsage] at h
    rcases hm1 : minByUsage u ks with _ | m1 <;> rw [hm1] at h
    · change some k = some m at h
      cases h
      rcases List.mem_cons.mp hx with hx | hx
      · subst hx
        exact le_refl _
      · cases ks with
        | nil => simp at hx
        | cons a l2 =>
          obtain ⟨m2, hm2⟩ := minByUsage_isSome u (a :: l2) (by simp)
          rw [hm2] at hm1
          cases hm1
    · change (if u k ≤ u m1 then some k else some m1) = some m at h
      by_cases hle : u k ≤ u m1
      · rw [if_pos hle] at h
        cases h
        rcases List.mem_cons.mp hx with hx | hx
        · subst hx
          exact le_refl _
        · exact le_trans hle (ih m1 hm1 x hx)
      · rw [if_neg hle] at h
        cases h
        rcases List.mem_cons.mp hx with hx | hx
        · subst hx
          exact le_of_not_le hle
        · exact ih _ hm1 x hx

/-- C8: whenever some pool key is neither temporarily failed nor
permanently invalid, `get_current_api_key` returns a key of minimal
usage count among exactly those keys. -/
theorem c8_least_used_selection (s : PoolState)
    (h : ∃ k, k ∈ s.apiKeys ∧ k ∉ s.failed ∧ k ∉ s.invalid) :
    ∃ k, (get_current_api_key s).1 = some k ∧
      k ∈ s.apiKeys ∧ k ∉ s.failed ∧ k ∉ s.invalid ∧
      ∀ k2, k2 ∈ s.apiKeys → k2 ∉ s.failed → k2 ∉ s.invalid →
        s.usage k ≤ s.usage k2 := by
  obtain ⟨k0, hk0⟩ := h
  have hmem : k0 ∈ availableKeys s := (mem_availableKeys s k0).mpr hk0
  have hne : availableKeys s ≠ [] := List.ne_nil_of_mem hmem
  have hemp : (availableKeys s).isEmpty = false := by
    cases hl : availableKeys s with
    | nil => exact absurd hl hne
    | cons a l => rfl
  obtain ⟨m, hm⟩ := minByUsage_isSome s.usage (availableKeys s) hne
  refine ⟨m, ?_, ?_⟩
  · rw [get_current_api_key, hemp]
    exact hm
  · have hmm := (mem_availableKeys s m).mp (minByUsage_mem s.usage _ m hm)
    refine ⟨hmm.1, hmm.2.1, hmm.2.2, ?_⟩
    intro k2 h1 h2 h3
    exact minByUsage_le s.usage _ m hm k2
      ((mem_availableKeys s k2).mpr ⟨h1, h2, h3⟩)

/-- Witness for C8: on a fresh two-key pool with one key temporarily
failed, selection returns the other, least-used, key. -/
theorem c8_least_used_selection_witness :
    ∃ k, (get_current_api_key
        ⟨["k1", "k2"], fun _ => 0, ["k1"], []⟩).1 = some k ∧
      k ∈ ["k1", "k2"] ∧ k ∉ ["k1"] ∧ k ∉ ([] : List String) ∧
      ∀ k2, k2 ∈ ["k1", "k2"] → k2 ∉ ["k1"] → k2 ∉ ([] : List String) →
        (fun (_ : String) => 0) k ≤ (fun (_ : String) => 0) k2 :=
  c8_least_used_selection ⟨["k1", "k2"], fun _ => 0, ["k1"], []⟩
    ⟨"k2", by decide, by decide, by decide⟩

theorem list_ne_nil_of_isEmpty_false {α : Type} {l : List α}
    (h : l.isEmpty = false) : l ≠ [] := by
  cases l with
  | nil => cases h
  | cons a t => simp

theorem list_eq_nil_of_isEmpty_true {α : Type} {l : List α}
    (h : l.isEmpty = true) : l = [] := by
  cases l with
  | nil => rfl
  | cons a t => cases h

theorem all_invalid_of_validKeys_nil (s1 : PoolState)
    (h : s1.apiKeys.filter (fun k => !decide (k ∈ s1.invalid)) = []) :
    ∀ k2 ∈ s1.apiKeys, k2 ∈ s1.invalid := by
  intro k2 hk2
  have := List.filter_eq_nil_iff.mp h k2 hk2
  simpa using this

theorem mem_validKeys (s1 : PoolState) (k : String) :
    k ∈ s1.apiKeys.filter (fun k => !decide (k ∈ s1.invalid)) ↔
      k ∈ s1.apiKeys ∧ k ∉ s1.invalid := by
  simp [List.mem_filter]

theorem poolInv_rotateSelect (s1 : PoolState) :
    PoolInv (rotateSelect s1).2 := by
  rw [rotateSelect]
  dsimp only
  split
  · split
    · rename_i hvalid
      exact Or.inr (all_invalid_of_validKeys_nil s1
        (list_eq_nil_of_isEmpty_true hvalid))
    · rename_i hvalid
      left
      obtain ⟨v, hv⟩ :=
        List.exists_mem_of_ne_nil _ (list_ne_nil_of_isEmpty_false
          (Bool.of_not_eq_true hvalid))
      have hv2 := (mem_validKeys s1 v).mp hv
      have : v ∈ availableKeys { s1 with failed := [] } :=
        (mem_availableKeys _ v).mpr ⟨hv2.1, by simp, hv2.2⟩
      exact List.ne_nil_of_mem this
  · rename_i hav
    exact Or.inl (list_ne_nil_of_isEmpty_false (Bool.of_not_eq_true hav))

theorem poolInv_rotate (s : PoolState) (fk : Option String) :
    PoolInv (rotate_api_key s fk).2.1 := by
  cases fk with
  | none => exact poolInv_rotateSelect s
  | some k => exact poolInv_rotateSelect _

theorem rotateSelect_some_invalid (s1 : PoolState) (k : String)
    (hsel : (rotateSelect s1).1 = some k) (hinv : k ∈ s1.invalid) :
    ∀ k2 ∈ s1.apiKeys, k2 ∈ s1.invalid := by
  rw [rotateSelect] at hsel
  dsimp only at hsel
  split at hsel
  · split at hsel
    · rename_i hvalid
      exact all_invalid_of_validKeys_nil s1
        (list_eq_nil_of_isEmpty_true hvalid)
    · exfalso
      have hk := List.get?_mem hsel
      exact ((mem_validKeys s1 k).mp hk).2 hinv
  · exfalso
    have hk := (mem_availableKeys s1 k).mp (minByUsage_mem _ _ _ hsel)
    exact hk.2.2 hinv

theorem rotate_some_invalid (s : PoolState) (fk : Option String)
    (k : String) (hsel : (rotate_api_key s fk).1 = some k)
    (hinv : k ∈ s.invalid) : ∀ k2 ∈ s.apiKeys, k2 ∈ s.invalid := by
  cases fk with
  | none => exact rotateSelect_some_invalid s k hsel hinv
  | some f =>
    exact rotateSelect_some_invalid { s with failed := insertKey f s.failed }
      k hsel hinv

theorem poolInv_get_current (s : PoolState) (h : PoolInv s) :
    PoolInv (get_current_api_key s).2 := by
  rw [get_current_api_key]
  split
  · by_cases hall : ∀ k2 ∈ s.apiKeys, k2 ∈ s.invalid
    · exact Or.inr hall
    · left
      push_neg at hall
      obtain ⟨v, hv1, hv2⟩ := hall
      exact List.ne_nil_of_mem
        ((mem_availableKeys { s with failed := [] } v).mpr ⟨hv1, by simp, hv2⟩)
  · exact h

theorem poolInv_tryKey (env : Nat → Nat) (jit : Nat → ℚ) (key : String)
    (maxR : Nat) : ∀ (attempts : List Nat) (s : PoolState) (rc : Nat),
      PoolInv s → PoolInv (tryKey env jit key maxR attempts s rc).2.1 := by
  intro attempts
  induction attempts with
  | nil => intro s rc h; exact h
  | cons a rest ih =>
    intro s rc h
    have h0 : PoolInv (if a = 0 then
        { s with usage := fun k => if k = key then s.usage k + 1 else s.usage k }
        else s) := by
      split <;> exact h
    rw [tryKey]
    split
    · exact h0
    · split
      · exact poolInv_rotate _ _
      · split
        · split
          · exact poolInv_rotate _ _
          · exact ih _ _ h0
        · split
          · split
            · exact poolInv_rotate _ _
            · exact ih _ _ h0
          · split
            · exact ih _ _ h0
            · split
              · exact poolInv_rotate _ _
              · exact ih _ _ h0

theorem poolInv_requestLoop (env : Nat → Nat) (jit : Nat → ℚ)
    (orig : String) : ∀ (fuel : Nat) (first : Bool) (cur : String)
      (s : PoolState) (rc : Nat), PoolInv s →
      PoolInv (requestLoop env jit orig fuel first cur s rc).2.1 := by
  intro fuel
  induction fuel with
  | zero => intro first cur s rc h; exact h
  | succ n ih =>
    intro first cur s rc h
    rw [requestLoop]
    dsimp only
    split
    · exact poolInv_tryKey env jit cur max_retries _ s rc h
    · split
      · exact poolInv_rotate _ _
      · split
        · exact poolInv_rotate _ _
        · exact ih _ _ _ _ (poolInv_rotate _ _)

theorem poolInv_make_request (env : Nat → Nat) (jit : Nat → ℚ)
    (s : PoolState) (rc : Nat) (h : PoolInv s) :
    PoolInv (make_request_with_retry env jit s rc).2.1 := by
  rw [make_request_with_retry]
  split
  · rename_i s1 heq
    have : s1 = (get_current_api_key s).2 := by rw [heq]
    rw [this]
    exact poolInv_get_current s h
  · rename_i orig s1 heq
    have hs1 : s1 = (get_current_api_key s).2 := by rw [heq]
    subst hs1
    exact poolInv_requestLoop env jit orig _ true orig _ rc
      (poolInv_get_current s h)

theorem reachable_poolInv (s : PoolState) (h : Reachable s) : PoolInv s := by
  induction h with
  | init keys =>
    cases keys with
    | nil => exact Or.inr (by intro k hk; cases hk)
    | cons k ks =>
      left
      exact List.ne_nil_of_mem
        ((mem_availableKeys (initPool (k :: ks)) k).mpr
          ⟨List.mem_cons_self _ _, by simp [initPool], by simp [initPool]⟩)
  | step env jit rc s1 _ ih => exact poolInv_make_request env jit s1 rc ih

/-- C2 (amended): in every reachable pool state, `get_current_api_key`
returns a permanently-invalid key only when every key of the pool has
been marked permanently invalid, and the selection inside
`rotate_api_key` (in any state) likewise returns a permanently-invalid
key only when every pool key is invalid: as long as one key is not
invalid, neither selection ever returns an invalid key. -/
theorem c2_no_invalid_selection :
    (∀ s k, Reachable s → (get_current_api_key s).1 = some k →
      k ∈ s.invalid → ∀ k2 ∈ s.apiKeys, k2 ∈ s.invalid) ∧
    (∀ s fk k, (rotate_api_key s fk).1 = some k →
      k ∈ s.invalid → ∀ k2 ∈ s.apiKeys, k2 ∈ s.invalid) := by
  constructor
  · intro s k hreach hsel hinv
    have hpool := reachable_poolInv s hreach
    rw [get_current_api_key] at hsel
    split at hsel
    · rename_i hemp
      rcases hpool with hpool | hpool
      · exact absurd (list_eq_nil_of_isEmpty_true hemp) hpool
      · exact hpool
    · exfalso
      exact ((mem_availableKeys s k).mp (minByUsage_mem _ _ _ hsel)).2.2 hinv
  · intro s fk k hsel hinv
    exact rotate_some_invalid s fk k hsel hinv

/-- Witness for the amended C2: after an all-401 run on a fresh two-key
pool, selection returns the invalid key k1, and the theorem forces every
pool key (here k2) to be invalid as well. -/
theorem c2_no_invalid_selection_witness : "k2" ∈ c2State.invalid :=
  c2_no_invalid_selection.1 c2State "k1"
    (Reachable.step env401 zeroJit 0 (initPool ["k1", "k2"])
      (Reachable.init ["k1", "k2"]))
    (by decide) (by decide) "k2" (by decide)

/-- Counterexample to C2 as stated: the state reached from a fresh
two-key pool by one request whose responses are all 401 is a reachable
state in which `get_current_api_key` returns key k1 even though k1 has
been marked permanently invalid during the run (the self-healing reset of
the temporary failures puts the whole pool, invalid keys included, back
into consideration). -/
theorem c2_no_invalid_selection_cex :
    Reachable c2State ∧ (get_current_api_key c2State).1 = some "k1" ∧
      "k1" ∈ c2State.invalid := by
  refine ⟨Reachable.step env401 zeroJit 0 (initPool ["k1", "k2"])
    (Reachable.init ["k1", "k2"]), ?_, ?_⟩ <;> decide

theorem splitCached_toGen_miss (cache : List (String × String)) :
    ∀ (items : List CompetitionWasteItem) (x : CompetitionWasteItem),
      x ∈ (splitCached cache items).2 →
      cacheLookup (cacheKey x) cache = none := by
  intro items
  induction items with
  | nil => intro x h; simp [splitCached] at h
  | cons j rest ih =>
    intro x h
    rw [splitCached] at h
    rcases hj : cacheLookup (cacheKey j) cache with _ | b <;> rw [hj] at h
    · rcases List.mem_cons.mp h with h | h
      · subst h
        exact hj
      · exact ih x h
    · exact ih x h

theorem splitCached_cached_mem (cache : List (String × String)) :
    ∀ (items : List CompetitionWasteItem) (it : CompetitionWasteItem)
      (b : String), it ∈ items →
      cacheLookup (cacheKey it) cache = some b →
      (it, b) ∈ (splitCached cache items).1 := by
  intro items
  induction items with
  | nil => intro it b h; simp at h
  | cons j rest ih =>
    intro it b hmem hhit
    rw [splitCached]
    rcases List.mem_cons.mp hmem with heq | hmem2
    · subst heq
      rw [hhit]
      exact List.mem_cons_self _ _
    · rcases hj : cacheLookup (cacheKey j) cache with _ | b2
      · exact ih it b hmem2 hhit
      · exact List.mem_cons_of_mem _ (ih it b hmem2 hhit)

/-- C6: an item whose cache key is present in the loaded cache is paired
with the cached bytes and is never placed in `items_to_generate`, hence
`generate_image` is never submitted for it. -/
theorem c6_cache_hit_skips_generation (items : List CompetitionWasteItem)
    (cache : List (String × String))
    (outcome : CompetitionWasteItem → StageOutcome (Option String))
    (it : CompetitionWasteItem) (b : String) (hmem : it ∈ items)
    (hhit : cacheLookup (cacheKey it) cache = some b) :
    it ∉ (generate_all_images items cache outcome).2.1 ∧
    (it, b) ∈ (generate_all_images items cache outcome).1 := by
  constructor
  · intro hc
    have h1 := splitCached_toGen_miss cache items it hc
    rw [h1] at hhit
    exact Option.noConfusion hhit
  · exact List.mem_append_left _ (splitCached_cached_mem cache items it b hmem hhit)

/-- Witness for C6: a concrete cached item is skipped and served from the
cache. -/
theorem c6_cache_hit_skips_generation_witness :
    (⟨"bouteille", "recyclables", "residentielle"⟩ : CompetitionWasteItem) ∉
      (generate_all_images [⟨"bouteille", "recyclables", "residentielle"⟩]
        [("recyclables_residentielle_bouteille", "IMGBYTES")]
        (fun _ => StageOutcome.ret none)).2.1 ∧
    ((⟨"bouteille", "recyclables", "residentielle"⟩ : CompetitionWasteItem),
        "IMGBYTES") ∈
      (generate_all_images [⟨"bouteille", "recyclables", "residentielle"⟩]
        [("recyclables_residentielle_bouteille", "IMGBYTES")]
        (fun _ => StageOutcome.ret none)).1 :=
  c6_cache_hit_skips_generation
    [⟨"bouteille", "recyclables", "residentielle"⟩]
    [("recyclables_residentielle_bouteille", "IMGBYTES")]
    (fun _ => StageOutcome.ret none)
    ⟨"bouteille", "recyclables", "residentielle"⟩ "IMGBYTES"
    (by decide) (by decide)

theorem batch_count_split
    (outcome : CompetitionWasteItem → StageOutcome (Option String)) :
    ∀ (l : List CompetitionWasteItem),
      (l.filterMap (fun it =>
        match outcome it with
        | StageOutcome.ret (some b) => some (it, b)
        | StageOutcome.ret none => none
        | StageOutcome.raise _ => none)).length +
      (l.filter (fun it =>
        match outcome it with
        | StageOutcome.ret (some _) => false
        | StageOutcome.ret none => true
        | StageOutcome.raise _ => true)).length = l.length := by
  intro l
  induction l with
  | nil => rfl
  | cons a rest ih =>
    rcases ho : outcome a with m | v
    · simp [List.filterMap_cons, List.filter_cons, ho]
      omega
    · rcases v with _ | b
      · simp [List.filterMap_cons, List.filter_cons, ho]
        omega
      · simp [List.filterMap_cons, List.filter_cons, ho]
        omega

theorem batch_success_mem
    (outcome : CompetitionWasteItem → StageOutcome (Option String)) :
    ∀ (l : List CompetitionWasteItem) (it : CompetitionWasteItem)
      (b : String), it ∈ l → outcome it = StageOutcome.ret (some b) →
      (it, b) ∈ l.filterMap (fun it =>
        match outcome it with
        | StageOutcome.ret (some b) => some (it, b)
        | StageOutcome.ret none => none
        | StageOutcome.raise _ => none) := by
  intro l
  induction l with
  | nil => intro it b h; simp at h
  | cons a rest ih =>
    intro it b hmem ho
    rw [List.filterMap_cons]
    rcases List.mem_cons.mp hmem with heq | hmem2
    · subst heq
      rw [ho]
      exact List.mem_cons_self _ _
    · rcases ha : outcome a with m | v
      · simp only [ha]
        exact ih it b hmem2 ho
      · rcases v with _ | b2
        · simp only [ha]
          exact ih it b hmem2 ho
        · simp only [ha]
          exact List.mem_cons_of_mem _ (ih it b hmem2 ho)

/-- C9: `generate_image` returns bytes exactly when all four steps
succeed (so every failing or raising path yields `None` rather than
propagating an exception), and the batch loop accounts for every
submitted item as either a collected success or a counted failure, with
each successful item collected no matter how the other items fail or
raise (partial-success semantics). -/
theorem c9_partial_success :
    (∀ genv b, generate_image genv = some b ↔
      genv.connectivityOk = StageOutcome.ret true ∧
      ∃ tid url, genv.createTask = StageOutcome.ret (some tid) ∧
        genv.waitCompletion tid = StageOutcome.ret (some url) ∧
        genv.downloadImage url = StageOutcome.ret (some b)) ∧
    (∀ items cache outcome,
      (generate_all_images items cache outcome).1.length +
        (generate_all_images items cache outcome).2.2 =
      (splitCached cache items).1.length +
        (generate_all_images items cache outcome).2.1.length) ∧
    (∀ items cache outcome it b,
      it ∈ (generate_all_images items cache outcome).2.1 →
      outcome it = StageOutcome.ret (some b) →
      (it, b) ∈ (generate_all_images items cache outcome).1) := by
  refine ⟨?_, ?_, ?_⟩
  · intro genv b
    constructor
    · intro h
      rw [generate_image] at h
      split at h
      · exact absurd h (by simp)
      · exact absurd h (by simp)
      · rename_i hconn
        split at h
        · exact absurd h (by simp)
        · exact absurd h (by simp)
        · rename_i tid hct
          split at h
          · exact absurd h (by simp)
          · exact absurd h (by simp)
          · rename_i url hwc
            split at h
            · exact absurd h (by simp)
            · exact absurd h (by simp)
            · rename_i data hdl
              cases h
              exact ⟨hconn, tid, url, hct, hwc, hdl⟩
    · rintro ⟨hc, tid, url, ht, hw, hd⟩
      simp [generate_image, hc, ht, hw, hd]
  · intro items cache outcome
    have h1 : generate_all_images items cache outcome =
        ((splitCached cache items).1 ++
          (splitCached cache items).2.filterMap (fun it =>
            match outcome it with
            | StageOutcome.ret (some b) => some (it, b)
            | StageOutcome.ret none => none
            | StageOutcome.raise _ => none),
         (splitCached cache items).2,
         ((splitCached cache items).2.filter (fun it =>
            match outcome it with
            | StageOutcome.ret (some _) => false
            | StageOutcome.ret none => true
            | StageOutcome.raise _ => true)).length) := rfl
    rw [h1]
    dsimp only
    rw [List.length_append]
    have h2 := batch_count_split outcome (splitCached cache items).2
    omega
  · intro items cache outcome it b hmem ho
    exact List.mem_append_right _ (batch_success_mem outcome _ it b hmem ho)

/-- Witness for C9: a fully successful stage environment yields the
downloaded bytes. -/
theorem c9_partial_success_witness :
    generate_image
      ⟨StageOutcome.ret true, StageOutcome.ret (some "tid-1"),
        fun _ => StageOutcome.ret (some "http://u/i.jpg"),
        fun _ => StageOutcome.ret (some "IMGBYTES")⟩ = some "IMGBYTES" :=
  (c9_partial_success.1
      ⟨StageOutcome.ret true, StageOutcome.ret (some "tid-1"),
        fun _ => StageOutcome.ret (some "http://u/i.jpg"),
        fun _ => StageOutcome.ret (some "IMGBYTES")⟩ "IMGBYTES").mpr
    ⟨rfl, "tid-1", "http://u/i.jpg", rfl, rfl, rfl⟩

theorem sleepDelays_append (l1 l2 : List Event) :
    sleepDelays (l1 ++ l2) = sleepDelays l1 ++ sleepDelays l2 := by
  induction l1 with
  | nil => rfl
  | cons e t ih => cases e <;> simp [sleepDelays, ih]

theorem attemptEvents_append (l1 l2 : List Event) :
    attemptEvents (l1 ++ l2) = attemptEvents l1 ++ attemptEvents l2 := by
  induction l1 with
  | nil => rfl
  | cons e t ih => cases e <;> simp [attemptEvents, ih]

theorem invalidMarks_append (l1 l2 : List Event) :
    invalidMarks (l1 ++ l2) = invalidMarks l1 ++ invalidMarks l2 := by
  induction l1 with
  | nil => rfl
  | cons e t ih => cases e <;> simp [invalidMarks, ih]

theorem rotate_events (s : PoolState) (fk : Option String) :
    (rotate_api_key s fk).2.2 =
      match fk with
      | some k => [Event.markTemp k]
      | none => [] := by
  cases fk <;> rfl

theorem rotateSelect_invalid_eq (s1 : PoolState) :
    (rotateSelect s1).2.invalid = s1.invalid := by
  rw [rotateSelect]
  dsimp only
  split
  · split <;> rfl
  · rfl

theorem rotate_invalid_eq (s : PoolState) (fk : Option String) :
    (rotate_api_key s fk).2.1.invalid = s.invalid := by
  cases fk with
  | none => exact rotateSelect_invalid_eq s
  | some k => exact rotateSelect_invalid_eq _

/-- C5: a key whose whole retry budget answers 429 ends its round with
`nextKey`: it is passed to `rotate_api_key` as a temporary failure
(`markTemp`), no `invalid_keys.add` is ever issued and the invalid set is
unchanged; concretely, with a single fresh credential and persistent 429
responses the work item is abandoned (`None`) after the three budgeted
attempts, with the credential marked temporarily failed and not
permanently invalid. -/
theorem c5_rate_limit_marks_temp_only :
    (∀ (env : Nat → Nat) (jit : Nat → ℚ) (key : String) (s : PoolState)
      (rc : Nat), (∀ i, i ≤ max_retries → env (rc + i) = 429) →
      (tryKey env jit key max_retries
          (List.range (max_retries + 1)) s rc).1 = TryResult.nextKey ∧
      Event.markTemp key ∈
        (tryKey env jit key max_retries
          (List.range (max_retries + 1)) s rc).2.2.2 ∧
      invalidMarks (tryKey env jit key max_retries
          (List.range (max_retries + 1)) s rc).2.2.2 = [] ∧
      (tryKey env jit key max_retries
          (List.range (max_retries + 1)) s rc).2.1.invalid = s.invalid) ∧
    (c5Run.1 = none ∧ Event.markTemp "k1" ∈ c5Run.2.2.2 ∧
      invalidMarks c5Run.2.2.2 = [] ∧ c5Run.2.1.invalid = [] ∧
      attemptEvents c5Run.2.2.2 =
        [("k1", 429), ("k1", 429), ("k1", 429)]) := by
  constructor
  · intro env jit key s rc h429
    have e0 : env rc = 429 := by
      have := h429 0 (by decide)
      simpa using this
    have e1 : env (rc + 1) = 429 := h429 1 (by decide)
    have e2 : env (rc + 2) = 429 := h429 2 (by decide)
    have hr : List.range (max_retries + 1) = [0, 1, 2] := rfl
    rw [hr]
    simp [tryKey, e0, e1, e2, max_retries, rotate_api_key, invalidMarks,
      invalidMarks_append, rotateSelect_invalid_eq]
  · refine ⟨by decide, by decide, by decide, by decide, by decide⟩

/-- Witness for C5: the single-key 429 round at the concrete oracle
`env429` satisfies the budget hypothesis and the round gives up without
any permanent invalidation. -/
theorem c5_rate_limit_marks_temp_only_witness :
    (tryKey env429 zeroJit "k1" max_retries
        (List.range (max_retries + 1)) (initPool ["k1"]) 0).1 =
      TryResult.nextKey ∧
    Event.markTemp "k1" ∈
      (tryKey env429 zeroJit "k1" max_retries
        (List.range (max_retries + 1)) (initPool ["k1"]) 0).2.2.2 ∧
    invalidMarks (tryKey env429 zeroJit "k1" max_retries
        (List.range (max_retries + 1)) (initPool ["k1"]) 0).2.2.2 = [] ∧
    (tryKey env429 zeroJit "k1" max_retries
        (List.range (max_retries + 1)) (initPool ["k1"]) 0).2.1.invalid =
      (initPool ["k1"]).invalid :=
  c5_rate_limit_marks_temp_only.1 env429 zeroJit "k1" (initPool ["k1"]) 0
    (fun _ _ => rfl)

theorem backoffDelay_eq_min (baseD maxD : ℚ) (a : Nat) (j : ℚ) :
    backoffDelay baseD maxD a j = min (baseD * 2 ^ a + j) maxD := by
  rw [backoffDelay, min_def]

theorem tryKey_sleeps (env : Nat → Nat) (jit : Nat → ℚ) (key : String)
    (maxR : Nat) : ∀ (attempts : List Nat) (s : PoolState) (rc : Nat)
      (d : ℚ),
      d ∈ sleepDelays (tryKey env jit key maxR attempts s rc).2.2.2 →
      ∃ a n, a ∈ attempts ∧ a ≠ 0 ∧
        d = backoffDelay base_delay max_delay a (jit n) := by
  intro attempts
  induction attempts with
  | nil => intro s rc d hd; simp [tryKey, sleepDelays] at hd
  | cons a rest ih =>
    intro s rc d hd
    rw [tryKey] at hd
    dsimp only at hd
    split at hd
    · simp only [sleepDelays_append, sleepDelays, apply_ite sleepDelays,
          rotate_events, List.mem_append, List.nil_append, List.append_nil,
          List.not_mem_nil, or_false, false_or] at hd
      by_cases ha : a = 0
      · rw [if_pos ha] at hd
        exact absurd hd (by simp)
      · rw [if_neg ha] at hd
        simp only [List.mem_singleton] at hd
        exact ⟨a, rc, List.mem_cons_self _ _, ha, hd⟩
    · split at hd
      · simp only [sleepDelays_append, sleepDelays, apply_ite sleepDelays,
            rotate_events, List.mem_append, List.nil_append, List.append_nil,
            List.not_mem_nil, or_false, false_or] at hd
        by_cases ha : a = 0
        · rw [if_pos ha] at hd
          exact absurd hd (by simp)
        · rw [if_neg ha] at hd
          simp only [List.mem_singleton] at hd
          exact ⟨a, rc, List.mem_cons_self _ _, ha, hd⟩
      · split at hd
        · split at hd
          · simp only [sleepDelays_append, sleepDelays, apply_ite sleepDelays,
                rotate_events, List.mem_append, List.nil_append, List.append_nil,
                List.not_mem_nil, or_false, false_or] at hd
            by_cases ha : a = 0
            · rw [if_pos ha] at hd
              exact absurd hd (by simp)
            · rw [if_neg ha] at hd
              simp only [List.mem_singleton] at hd
              exact ⟨a, rc, List.mem_cons_self _ _, ha, hd⟩
          · simp only [sleepDelays_append, sleepDelays, apply_ite sleepDelays,
                rotate_events, List.mem_append, List.nil_append, List.append_nil,
                List.not_mem_nil, or_false, false_or] at hd
            rcases hd with h | h
            · by_cases ha : a = 0
              · rw [if_pos ha] at h
                exact absurd h (by simp)
              · rw [if_neg ha] at h
                simp only [List.mem_singleton] at h
                exact ⟨a, rc, List.mem_cons_self _ _, ha, h⟩
            · obtain ⟨a2, n, hmem, ha2, hx2⟩ := ih _ _ d h
              exact ⟨a2, n, List.mem_cons_of_mem _ hmem, ha2, hx2⟩
        · split at hd
          · split at hd
            · simp only [sleepDelays_append, sleepDelays, apply_ite sleepDelays,
                  rotate_events, List.mem_append, List.nil_append, List.append_nil,
                  List.not_mem_nil, or_false, false_or] at hd
              by_cases ha : a = 0
              · rw [if_pos ha] at hd
                exact absurd hd (by simp)
              · rw [if_neg ha] at hd
                simp only [List.mem_singleton] at hd
                exact ⟨a, rc, List.mem_cons_self _ _, ha, hd⟩
            · simp only [sleepDelays_append, sleepDelays, apply_ite sleepDelays,
                  rotate_events, List.mem_append, List.nil_append, List.append_nil,
                  List.not_mem_nil, or_false, false_or] at hd
              rcases hd with h | h
              · by_cases ha : a = 0
                · rw [if_pos ha] at h
                  exact absurd h (by simp)
                · rw [if_neg ha] at h
                  simp only [List.mem_singleton] at h
                  exact ⟨a, rc, List.mem_cons_self _ _, ha, h⟩
              · obtain ⟨a2, n, hmem, ha2, hx2⟩ := ih _ _ d h
                exact ⟨a2, n, List.mem_cons_of_mem _ hmem, ha2, hx2⟩
          · split at hd
            · simp only [sleepDelays_append, sleepDelays, apply_ite sleepDelays,
                  rotate_events, List.mem_append, List.nil_append, List.append_nil,
                  List.not_mem_nil, or_false, false_or] at hd
              rcases hd with h | h
              · by_cases ha : a = 0
                · rw [if_pos ha] at h
                  exact absurd h (by simp)
                · rw [if_neg ha] at h
                  simp only [List.mem_singleton] at h
                  exact ⟨a, rc, List.mem_cons_self _ _, ha, h⟩
              · obtain ⟨a2, n, hmem, ha2, hx2⟩ := ih _ _ d h
                exact ⟨a2, n, List.mem_cons_of_mem _ hmem, ha2, hx2⟩
            · split at hd
              · simp only [sleepDelays_append, sleepDelays, apply_ite sleepDelays,
                    rotate_events, List.mem_append, List.nil_append, List.append_nil,
                    List.not_mem_nil, or_false, false_or] at hd
                by_cases ha : a = 0
                · rw [if_pos ha] at hd
                  exact absurd hd (by simp)
                · rw [if_neg ha] at hd
                  simp only [List.mem_singleton] at hd
                  exact ⟨a, rc, List.mem_cons_self _ _, ha, hd⟩
              · simp only [sleepDelays_append, sleepDelays, apply_ite sleepDelays,
                    rotate_events, List.mem_append, List.nil_append, List.append_nil,
                    List.not_mem_nil, or_false, false_or] at hd
                rcases hd with h | h
                · by_cases ha : a = 0
                  · rw [if_pos ha] at h
                    exact absurd h (by simp)
                  · rw [if_neg ha] at h
                    simp only [List.mem_singleton] at h
                    exact ⟨a, rc, List.mem_cons_self _ _, ha, h⟩
                · obtain ⟨a2, n, hmem, ha2, hx2⟩ := ih _ _ d h
                  exact ⟨a2, n, List.mem_cons_of_mem _ hmem, ha2, hx2⟩

theorem requestLoop_sleeps (env : Nat → Nat) (jit : Nat → ℚ)
    (orig : String) : ∀ (fuel : Nat) (first : Bool) (cur : String)
      (s : PoolState) (rc : Nat) (d : ℚ),
      d ∈ sleepDelays (requestLoop env jit orig fuel first cur s rc).2.2.2 →
      ∃ a n, 1 ≤ a ∧ a ≤ max_retries ∧
        d = backoffDelay base_delay max_delay a (jit n) := by
  intro fuel
  induction fuel with
  | zero => intro first cur s rc d hd; simp [requestLoop, sleepDelays] at hd
  | succ m ih =>
    intro first cur s rc d hd
    have fromTry : ∀ (s2 : PoolState) (rc2 : Nat),
        d ∈ sleepDelays (tryKey env jit cur max_retries
          (List.range (max_retries + 1)) s2 rc2).2.2.2 →
        ∃ a n, 1 ≤ a ∧ a ≤ max_retries ∧
          d = backoffDelay base_delay max_delay a (jit n) := by
      intro s2 rc2 h
      obtain ⟨a, n, hmem, ha, hx⟩ := tryKey_sleeps env jit cur max_retries _
        s2 rc2 d h
      exact ⟨a, n, Nat.one_le_iff_ne_zero.mpr ha,
        Nat.lt_succ_iff.mp (List.mem_range.mp hmem), hx⟩
    rw [requestLoop] at hd
    dsimp only at hd
    split at hd
    · exact fromTry _ _ hd
    · split at hd
      · simp only [sleepDelays_append, rotate_events, sleepDelays,
          List.append_nil] at hd
        exact fromTry _ _ hd
      · split at hd
        · simp only [sleepDelays_append, rotate_events, sleepDelays,
            List.append_nil] at hd
          exact fromTry _ _ hd
        · simp only [sleepDelays_append, rotate_events, sleepDelays,
            List.append_nil] at hd
          rcases List.mem_append.mp hd with h | h
          · exact fromTry _ _ h
          · exact ih _ _ _ _ d h

/-- C7: every delay slept by the retry controller is produced by the
exponential backoff formula `min(base_delay * 2 ** attempt + jitter,
max_delay)` for some retry attempt between 1 and the retry budget and the
sampled jitter, and hence never exceeds `max_delay`; jitter samples lie
in [0, 0.5]. -/
theorem c7_backoff_formula (env : Nat → Nat) (jit : Nat → ℚ)
    (hj : ∀ n, 0 ≤ jit n ∧ jit n ≤ 1 / 2) (s : PoolState) (rc : Nat)
    (d : ℚ)
    (hd : d ∈ sleepDelays (make_request_with_retry env jit s rc).2.2.2) :
    d ≤ max_delay ∧ ∃ a j, 1 ≤ a ∧ a ≤ max_retries ∧ 0 ≤ j ∧
      j ≤ 1 / 2 ∧ d = min (base_delay * 2 ^ a + j) max_delay := by
  have hd2 : ∃ a n, 1 ≤ a ∧ a ≤ max_retries ∧
      d = backoffDelay base_delay max_delay a (jit n) := by
    rw [make_request_with_retry] at hd
    split at hd
    · simp [sleepDelays] at hd
    · exact requestLoop_sleeps env jit _ _ true _ _ rc d hd
  obtain ⟨a, n, h1, h2, hx⟩ := hd2
  constructor
  · rw [hx, backoffDelay_eq_min]
    exact min_le_right _ _
  · exact ⟨a, jit n, h1, h2, (hj n).1, (hj n).2,
      by rw [hx, backoffDelay_eq_min]⟩

/-- Witness for C7: in the concrete single-key 429 run the first slept
delay is the backoff value of attempt 1, which satisfies the formula and
the bound. -/
theorem c7_backoff_formula_witness :
    backoffDelay base_delay max_delay 1 (zeroJit 1) ≤ max_delay ∧
    ∃ a j, 1 ≤ a ∧ a ≤ max_retries ∧ 0 ≤ j ∧ j ≤ 1 / 2 ∧
      backoffDelay base_delay max_delay 1 (zeroJit 1) =
        min (base_delay * 2 ^ a + j) max_delay :=
  c7_backoff_formula env429 zeroJit
    (fun _ => ⟨le_refl 0, by norm_num [zeroJit]⟩)
    (initPool ["k1"]) 0 (backoffDelay base_delay max_delay 1 (zeroJit 1))
    (by
      have h : sleepDelays
          (make_request_with_retry env429 zeroJit (initPool ["k1"]) 0).2.2.2 =
          [backoffDelay base_delay max_delay 1 (zeroJit 1),
           backoffDelay base_delay max_delay 2 (zeroJit 2)] := rfl
      rw [h]
      exact List.mem_cons_self _ _)

theorem mem_insertKey_self (k : String) (l : List String) :
    k ∈ insertKey k l := by
  rw [insertKey]
  split
  · assumption
  · exact List.mem_cons_self _ _

theorem insertKey_idem (k : String) (l : List String) :
    insertKey k (insertKey k l) = insertKey k l := by
  show (if k ∈ insertKey k l then insertKey k l else k :: insertKey k l) =
    insertKey k l
  rw [if_pos (mem_insertKey_self k l)]

theorem tryKey_noAuthRetry (env : Nat → Nat) (jit : Nat → ℚ) (key : String)
    (maxR : Nat) : ∀ (attempts : List Nat) (s : PoolState) (rc : Nat),
      noAttemptAfterAuth
        (attemptEvents (tryKey env jit key maxR attempts s rc).2.2.2) =
        true := by
  intro attempts
  induction attempts with
  | nil => intro s rc; rfl
  | cons a rest ih =>
    intro s rc
    rw [tryKey]
    dsimp only
    split
    · rename_i h200
      simp [attemptEvents_append, attemptEvents, apply_ite attemptEvents,
        noAttemptAfterAuth, h200]
    · rename_i h200n
      split
      · rename_i hauth
        rcases hauth with h | h <;>
          simp [attemptEvents_append, attemptEvents, apply_ite attemptEvents,
            rotate_events, noAttemptAfterAuth, h]
      · rename_i hauthn
        have hstep : ∀ l : List (String × Nat),
            noAttemptAfterAuth l = true →
            noAttemptAfterAuth ((key, env rc) :: l) = true := by
          intro l hl
          rw [noAttemptAfterAuth, if_neg hauthn]
          exact hl
        split
        · split
          · simp only [attemptEvents_append, attemptEvents,
              apply_ite attemptEvents, rotate_events, ite_self,
              List.nil_append, List.append_nil]
            exact hstep [] rfl
          · simp only [attemptEvents_append, attemptEvents,
              apply_ite attemptEvents, ite_self, List.nil_append]
            exact hstep _ (ih _ _)
        · split
          · split
            · simp only [attemptEvents_append, attemptEvents,
                apply_ite attemptEvents, rotate_events, ite_self,
                List.nil_append, List.append_nil]
              exact hstep [] rfl
            · simp only [attemptEvents_append, attemptEvents,
                apply_ite attemptEvents, ite_self, List.nil_append]
              exact hstep _ (ih _ _)
          · split
            · simp only [attemptEvents_append, attemptEvents,
                apply_ite attemptEvents, ite_self, List.nil_append]
              exact hstep _ (ih _ _)
            · split
              · simp only [attemptEvents_append, attemptEvents,
                  apply_ite attemptEvents, rotate_events, ite_self,
                  List.nil_append, List.append_nil]
                exact hstep [] rfl
              · simp only [attemptEvents_append, attemptEvents,
                  apply_ite attemptEvents, ite_self, List.nil_append]
                exact hstep _ (ih _ _)

theorem tryKey_auth_marks (env : Nat → Nat) (jit : Nat → ℚ) (key : String)
    (maxR : Nat) : ∀ (attempts : List Nat) (s : PoolState) (rc : Nat)
      (c : Nat),
      (key, c) ∈ attemptEvents (tryKey env jit key maxR attempts s rc).2.2.2 →
      c = 401 ∨ c = 403 →
      key ∈ (tryKey env jit key maxR attempts s rc).2.1.invalid ∧
      Event.markInvalid key ∈
        (tryKey env jit key maxR attempts s rc).2.2.2 ∧
      Event.markTemp key ∈ (tryKey env jit key maxR attempts s rc).2.2.2 := by
  intro attempts
  induction attempts with
  | nil => intro s rc c hmem hc; simp [tryKey, attemptEvents] at hmem
  | cons a rest ih =>
    intro s rc c hmem hc
    rw [tryKey] at hmem ⊢
    dsimp only at hmem ⊢
    split at hmem
    · rename_i h200
      exfalso
      simp [attemptEvents_append, attemptEvents, apply_ite attemptEvents,
        ite_self, Prod.mk.injEq] at hmem
      rcases hc with h | h <;> omega
    · rename_i h200n
      simp only [if_neg h200n]
      split at hmem
      · rename_i hauth
        simp only [if_pos hauth]
        try dsimp only
        refine ⟨?_, ?_, ?_⟩
        · rw [rotate_invalid_eq]
          exact mem_insertKey_self _ _
        · simp [rotate_events]
        · simp [rotate_events]
      · rename_i hauthn
        simp only [if_neg hauthn]
        split at hmem
        · rename_i h404
          simp only [if_pos h404]
          split at hmem
          · rename_i hamax
            simp only [if_pos hamax]
            try dsimp only
            refine ⟨?_, ?_, ?_⟩
            · rw [rotate_invalid_eq]
              exact mem_insertKey_self _ _
            · simp [rotate_events]
            · simp [rotate_events]
          · rename_i hamaxn
            simp only [if_neg hamaxn]
            simp [attemptEvents_append, attemptEvents,
              apply_ite attemptEvents, ite_self, Prod.mk.injEq] at hmem
            rcases hmem with h | h
            · refine absurd ?_ hauthn
              rcases hc with h2 | h2
              · exact Or.inl (by omega)
              · exact Or.inr (by omega)
            · try dsimp only
              obtain ⟨h1, h2, h3⟩ := ih _ _ c h hc
              exact ⟨h1, List.mem_append_right _ h2,
                List.mem_append_right _ h3⟩
        · rename_i h404n
          simp only [if_neg h404n]
          split at hmem
          · rename_i h429
            simp only [if_pos h429]
            split at hmem
            · rename_i hamax
              simp only [if_pos hamax]
              exfalso
              simp [attemptEvents_append, attemptEvents,
                apply_ite attemptEvents, ite_self, rotate_events,
                Prod.mk.injEq] at hmem
              rcases hc with h | h <;> omega
            · rename_i hamaxn
              simp only [if_neg hamaxn]
              simp [attemptEvents_append, attemptEvents,
                apply_ite attemptEvents, ite_self, Prod.mk.injEq] at hmem
              rcases hmem with h | h
              · refine absurd ?_ hauthn
                rcases hc with h2 | h2
                · exact Or.inl (by omega)
                · exact Or.inr (by omega)
              · try dsimp only
                obtain ⟨h1, h2, h3⟩ := ih _ _ c h hc
                exact ⟨h1, List.mem_append_right _ h2,
                  List.mem_append_right _ h3⟩
          · rename_i h429n
            simp only [if_neg h429n]
            split at hmem
            · rename_i h5xx
              simp only [if_pos h5xx]
              simp [attemptEvents_append, attemptEvents,
                apply_ite attemptEvents, ite_self, Prod.mk.injEq] at hmem
              rcases hmem with h | h
              · refine absurd ?_ hauthn
                rcases hc with h2 | h2
                · exact Or.inl (by omega)
                · exact Or.inr (by omega)
              · try dsimp only
                obtain ⟨h1, h2, h3⟩ := ih _ _ c h hc
                exact ⟨h1, List.mem_append_right _ h2,
                  List.mem_append_right _ h3⟩
            · rename_i h5xxn
              simp only [if_neg h5xxn]
              split at hmem
              · rename_i hamax
                simp only [if_pos hamax]
                exfalso
                simp [attemptEvents_append, attemptEvents,
                  apply_ite attemptEvents, ite_self, rotate_events,
                  Prod.mk.injEq] at hmem
                refine absurd ?_ hauthn
                rcases hc with h2 | h2
                · exact Or.inl (by omega)
                · exact Or.inr (by omega)
              · rename_i hamaxn
                simp only [if_neg hamaxn]
                simp [attemptEvents_append, attemptEvents,
                  apply_ite attemptEvents, ite_self, Prod.mk.injEq] at hmem
                rcases hmem with h | h
                · refine absurd ?_ hauthn
                  rcases hc with h2 | h2
                  · exact Or.inl (by omega)
                  · exact Or.inr (by omega)
                · try dsimp only
                  obtain ⟨h1, h2, h3⟩ := ih _ _ c h hc
                  exact ⟨h1, List.mem_append_right _ h2,
                    List.mem_append_right _ h3⟩

/-- C4 (amended): a 401/403 response adds the credential to the
permanently-invalid set (idempotently), immediately triggers the rotation
(the `markTemp`/rotate call), and no further request of the round is
issued with that credential; in the whole request, the rotation can hand
the same credential out again only when every credential of the pool is
permanently invalid (the last-resort fallback), which is therefore the
single situation in which an invalidated credential is re-attempted. -/
theorem c4_auth_invalidation :
    (∀ (k : String) (l : List String),
      insertKey k (insertKey k l) = insertKey k l) ∧
    (∀ (env : Nat → Nat) (jit : Nat → ℚ) (key : String) (maxR : Nat)
      (attempts : List Nat) (s : PoolState) (rc : Nat),
      noAttemptAfterAuth (attemptEvents
        (tryKey env jit key maxR attempts s rc).2.2.2) = true ∧
      ∀ c, (key, c) ∈ attemptEvents
          (tryKey env jit key maxR attempts s rc).2.2.2 →
        c = 401 ∨ c = 403 →
        key ∈ (tryKey env jit key maxR attempts s rc).2.1.invalid ∧
        Event.markInvalid key ∈
          (tryKey env jit key maxR attempts s rc).2.2.2 ∧
        Event.markTemp key ∈
          (tryKey env jit key maxR attempts s rc).2.2.2) ∧
    (∀ (s : PoolState) (fk : Option String) (k : String),
      (rotate_api_key s fk).1 = some k → k ∈ s.invalid →
      ∀ k2 ∈ s.apiKeys, k2 ∈ s.invalid) :=
  ⟨insertKey_idem,
   fun env jit key maxR attempts s rc =>
     ⟨tryKey_noAuthRetry env jit key maxR attempts s rc,
      fun c hmem hc =>
        tryKey_auth_marks env jit key maxR attempts s rc c hmem hc⟩,
   rotate_some_invalid⟩

/-- Witness for the amended C4: a 401 on a fresh single-key round leaves
the key in the invalid set. -/
theorem c4_auth_invalidation_witness :
    "k1" ∈ (tryKey env401 zeroJit "k1" max_retries
      (List.range (max_retries + 1)) (initPool ["k1"]) 0).2.1.invalid :=
  ((c4_auth_invalidation.2.1 env401 zeroJit "k1" max_retries
      (List.range (max_retries + 1)) (initPool ["k1"]) 0).2 401
    (by decide) (Or.inl rfl)).1

/-- Counterexample to C4 as stated: in the second request of the chained
run `c4Run2` (reachable from a fresh three-key pool), credential k1
receives 401, is marked permanently invalid, and is nevertheless
attempted once more within the same request by the last-resort rotation,
so an authentication failure is followed by another attempt with the same
credential. -/
theorem c4_auth_invalidation_cex :
    attemptEvents c4Run2.2.2.2 = [("k1", 401), ("k1", 401)] ∧
    noAttemptAfterAuth (attemptEvents c4Run2.2.2.2) = false ∧
    "k1" ∈ c4Run2.2.1.invalid ∧ c4Run2.1 = none := by
  refine ⟨by decide, by decide, by decide, by decide⟩

theorem tryKey_no200 (env : Nat → Nat) (jit : Nat → ℚ) (key : String)
    (maxR : Nat) : ∀ (attempts : List Nat) (s : PoolState) (rc : Nat),
      (tryKey env jit key maxR attempts s rc).1 = TryResult.nextKey →
      ∀ p ∈ attemptEvents (tryKey env jit key maxR attempts s rc).2.2.2,
        p.2 ≠ 200 := by
  intro attempts
  induction attempts with
  | nil => intro s rc hres p hp; simp [tryKey, attemptEvents] at hp
  | cons a rest ih =>
    intro s rc hres p hp
    rw [tryKey] at hres hp
    dsimp only at hres hp
    split at hp
    · rename_i h200
      simp only [if_pos h200] at hres
      exact absurd hres (by simp)
    · rename_i h200n
      simp only [if_neg h200n] at hres
      split at hp
      · rename_i hauth
        simp [attemptEvents_append, attemptEvents, apply_ite attemptEvents,
          ite_self, rotate_events] at hp
        rw [hp]
        exact h200n
      · rename_i hauthn
        simp only [if_neg hauthn] at hres
        split at hp
        · rename_i h404
          simp only [if_pos h404] at hres
          split at hp
          · rename_i hamax
            simp [attemptEvents_append, attemptEvents,
              apply_ite attemptEvents, ite_self, rotate_events] at hp
            rw [hp]
            exact h200n
          · rename_i hamaxn
            simp only [if_neg hamaxn] at hres
            simp [attemptEvents_append, attemptEvents,
              apply_ite attemptEvents, ite_self] at hp
            rcases hp with h | h
            · rw [h]
              exact h200n
            · exact ih _ _ hres p h
        · rename_i h404n
          simp only [if_neg h404n] at hres
          split at hp
          · rename_i h429
            simp only [if_pos h429] at hres
            split at hp
            · rename_i hamax
              simp [attemptEvents_append, attemptEvents,
                apply_ite attemptEvents, ite_self, rotate_events] at hp
              rw [hp]
              exact h200n
            · rename_i hamaxn
              simp only [if_neg hamaxn] at hres
              simp [attemptEvents_append, attemptEvents,
                apply_ite attemptEvents, ite_self] at hp
              rcases hp with h | h
              · rw [h]
                exact h200n
              · exact ih _ _ hres p h
          · rename_i h429n
            simp only [if_neg h429n] at hres
            split at hp
            · rename_i h5xx
              simp only [if_pos h5xx] at hres
              simp [attemptEvents_append, attemptEvents,
                apply_ite attemptEvents, ite_self] at hp
              rcases hp with h | h
              · rw [h]
                exact h200n
              · exact ih _ _ hres p h
            · rename_i h5xxn
              simp only [if_neg h5xxn] at hres
              split at hp
              · rename_i hamax
                simp [attemptEvents_append, attemptEvents,
                  apply_ite attemptEvents, ite_self, rotate_events] at hp
                rw [hp]
                exact h200n
              · rename_i hamaxn
                simp only [if_neg hamaxn] at hres
                simp [attemptEvents_append, attemptEvents,
                  apply_ite attemptEvents, ite_self] at hp
                rcases hp with h | h
                · rw [h]
                  exact h200n
                · exact ih _ _ hres p h

theorem tryKey_attempts_len (env : Nat → Nat) (jit : Nat → ℚ)
    (key : String) (maxR : Nat) : ∀ (attempts : List Nat) (s : PoolState)
      (rc : Nat),
      (attemptEvents (tryKey env jit key maxR attempts s rc).2.2.2).length ≤
        attempts.length := by
  intro attempts
  induction attempts with
  | nil => intro s rc; simp [tryKey, attemptEvents]
  | cons a rest ih =>
    intro s rc
    rw [tryKey]
    dsimp only
    split
    · simp only [attemptEvents_append, attemptEvents,
        apply_ite attemptEvents, ite_self, List.nil_append, List.append_nil,
        List.length_cons, List.length_nil]
      omega
    · split
      · simp only [attemptEvents_append, attemptEvents,
          apply_ite attemptEvents, ite_self, rotate_events, List.nil_append,
          List.append_nil, List.length_cons, List.length_nil]
        omega
      · split
        · split
          · simp only [attemptEvents_append, attemptEvents,
              apply_ite attemptEvents, ite_self, rotate_events,
              List.nil_append, List.append_nil, List.length_cons,
              List.length_nil]
            omega
          · simp only [attemptEvents_append, attemptEvents,
              apply_ite attemptEvents, ite_self, List.nil_append,
              List.length_cons]
            exact Nat.succ_le_succ (ih _ _)
        · split
          · split
            · simp only [attemptEvents_append, attemptEvents,
                apply_ite attemptEvents, ite_self, rotate_events,
                List.nil_append, List.append_nil, List.length_cons,
                List.length_nil]
              omega
            · simp only [attemptEvents_append, attemptEvents,
                apply_ite attemptEvents, ite_self, List.nil_append,
                List.length_cons]
              exact Nat.succ_le_succ (ih _ _)
          · split
            · simp only [attemptEvents_append, attemptEvents,
                apply_ite attemptEvents, ite_self, List.nil_append,
                List.length_cons]
              exact Nat.succ_le_succ (ih _ _)
            · split
              · simp only [attemptEvents_append, attemptEvents,
                  apply_ite attemptEvents, ite_self, rotate_events,
                  List.nil_append, List.append_nil, List.length_cons,
                  List.length_nil]
                omega
              · simp only [attemptEvents_append, attemptEvents,
                  apply_ite attemptEvents, ite_self, List.nil_append,
                  List.length_cons]
                exact Nat.succ_le_succ (ih _ _)


theorem requestLoop_no200 (env : Nat → Nat) (jit : Nat → ℚ)
    (orig : String) : ∀ (fuel : Nat) (first : Bool) (cur : String)
      (s : PoolState) (rc : Nat),
      (requestLoop env jit orig fuel first cur s rc).1 = none →
      ∀ p ∈ attemptEvents
          (requestLoop env jit orig fuel first cur s rc).2.2.2,
        p.2 ≠ 200 := by
  intro fuel
  induction fuel with
  | zero =>
    intro first cur s rc hres p hp
    simp [requestLoop, attemptEvents] at hp
  | succ m ih =>
    intro first cur s rc hres p hp
    rw [requestLoop] at hres hp
    dsimp only at hres hp
    split at hp
    · rename_i heq
      rw [heq] at hres
      exact absurd hres (by simp)
    · rename_i heq
      rw [heq] at hres
      split at hp
      · rename_i heq2
        simp only [attemptEvents_append, rotate_events, attemptEvents,
          List.append_nil] at hp
        exact tryKey_no200 env jit cur max_retries _ s rc heq p hp
      · rename_i next heq2
        rw [heq2] at hres
        split at hp
        · rename_i hbreak
          simp only [attemptEvents_append, rotate_events, attemptEvents,
            List.append_nil] at hp
          exact tryKey_no200 env jit cur max_retries _ s rc heq p hp
        · rename_i hbreakn
          dsimp only at hres
          rw [if_neg hbreakn] at hres
          simp only [attemptEvents_append, rotate_events, attemptEvents,
            List.append_nil] at hp
          rcases List.mem_append.mp hp with h | h
          · exact tryKey_no200 env jit cur max_retries _ s rc heq p h
          · exact ih _ _ _ _ hres p h

theorem requestLoop_len (env : Nat → Nat) (jit : Nat → ℚ)
    (orig : String) : ∀ (fuel : Nat) (first : Bool) (cur : String)
      (s : PoolState) (rc : Nat),
      (attemptEvents
        (requestLoop env jit orig fuel first cur s rc).2.2.2).length ≤
        fuel * (max_retries + 1) := by
  intro fuel
  induction fuel with
  | zero => intro first cur s rc; simp [requestLoop, attemptEvents]
  | succ m ih =>
    intro first cur s rc
    have htk : ∀ (s2 : PoolState) (rc2 : Nat),
        (attemptEvents (tryKey env jit cur max_retries
          (List.range (max_retries + 1)) s2 rc2).2.2.2).length ≤
          max_retries + 1 := by
      intro s2 rc2
      have h1 := tryKey_attempts_len env jit cur max_retries
        (List.range (max_retries + 1)) s2 rc2
      simpa [List.length_range] using h1
    rw [requestLoop]
    dsimp only
    split
    · dsimp only
      have := htk s rc
      have h2 : m * (max_retries + 1) + (max_retries + 1) =
          (m + 1) * (max_retries + 1) := by ring
      omega
    · split
      · simp only [attemptEvents_append, rotate_events, attemptEvents,
          List.append_nil]
        have := htk s rc
        have h2 : m * (max_retries + 1) + (max_retries + 1) =
            (m + 1) * (max_retries + 1) := by ring
        omega
      · split
        · simp only [attemptEvents_append, rotate_events, attemptEvents,
            List.append_nil]
          have := htk s rc
          have h2 : m * (max_retries + 1) + (max_retries + 1) =
              (m + 1) * (max_retries + 1) := by ring
          omega
        · rename_i next heqr hcond
          simp only [attemptEvents_append, rotate_events, attemptEvents,
            List.append_nil, List.length_append]
          have := htk s rc
          have hq := ih false next
            (rotate_api_key (tryKey env jit cur max_retries
              (List.range (max_retries + 1)) s rc).2.1 (some cur)).2.1
            (tryKey env jit cur max_retries
              (List.range (max_retries + 1)) s rc).2.2.1
          have h2 : m * (max_retries + 1) + (max_retries + 1) =
              (m + 1) * (max_retries + 1) := by ring
          omega

theorem get_current_apiKeys (s : PoolState) :
    (get_current_api_key s).2.apiKeys = s.apiKeys := by
  rw [get_current_api_key]
  split <;> rfl

/-- C3 (amended): when `_make_request_with_retry` abandons a work item
(returns None), every request it actually issued had failed (no 200 was
observed) and it had issued at most `len(api_keys)` rounds of at most
`max_retries + 1` attempts; the rounds are chosen by rotation and may
repeat a credential after a mid-request self-healing reset, so a pool
credential can remain untried. -/
theorem c3_abandon_only_after_failures (env : Nat → Nat) (jit : Nat → ℚ)
    (s : PoolState) (rc : Nat)
    (h : (make_request_with_retry env jit s rc).1 = none) :
    (∀ p ∈ attemptEvents (make_request_with_retry env jit s rc).2.2.2,
      p.2 ≠ 200) ∧
    (attemptEvents (make_request_with_retry env jit s rc).2.2.2).length ≤
      s.apiKeys.length * (max_retries + 1) := by
  rw [make_request_with_retry] at h ⊢
  split at h
  · rename_i s1 heq
    simp [attemptEvents]
  · rename_i orig s1 heq
    have hkeys : s1.apiKeys = s.apiKeys := by
      have hs1 : s1 = (get_current_api_key s).2 := by rw [heq]
      rw [hs1, get_current_apiKeys]
    constructor
    · exact requestLoop_no200 env jit orig s1.apiKeys.length true orig s1 rc h
    · have hlen := requestLoop_len env jit orig s1.apiKeys.length true orig s1 rc
      nth_rewrite 2 [hkeys] at hlen
      exact hlen

/-- Witness for the amended C3: the abandoned single-key 429 run issued
no successful attempt and at most pool-size × budget attempts. -/
theorem c3_abandon_only_after_failures_witness :
    ((("k1", 429) : String × Nat)).2 ≠ 200 ∧
    (attemptEvents (make_request_with_retry env429 zeroJit
        (initPool ["k1"]) 0).2.2.2).length ≤
      (initPool ["k1"]).apiKeys.length * (max_retries + 1) :=
  ⟨(c3_abandon_only_after_failures env429 zeroJit (initPool ["k1"]) 0
      (by decide)).1 ("k1", 429) (by decide),
   (c3_abandon_only_after_failures env429 zeroJit (initPool ["k1"]) 0
      (by decide)).2⟩

/-- Counterexample to C3 as stated: in the third request of the chained
run (reachable from a fresh two-key pool), the controller returns None
after issuing all six of its attempts with k1 alone — k2, which is
neither permanently invalid nor (at the end) temporarily failed, is never
tried for that request. -/
theorem c3_abandon_only_after_failures_cex :
    c3Run3.1 = none ∧
    attemptEvents c3Run3.2.2.2 =
      [("k1", 503), ("k1", 503), ("k1", 503),
       ("k1", 503), ("k1", 503), ("k1", 503)] ∧
    "k2" ∈ c3Run3.2.1.apiKeys ∧ "k2" ∉ c3Run3.2.1.invalid ∧
    "k2" ∉ c3Run3.2.1.failed := by
  refine ⟨by decide, by decide, by decide, by decide, by decide⟩

end TRCAI
